import Mathlib

/-!
Verification of the A.L.I.V.E coordination core: a shallow embedding of
`src/adk/a2a.py` (the in-process event bus) and `src/agents/librarian.py`
(the coordinator's task lifecycle and spec-consolidation pipeline), with
theorems settling the specification's claims about them.

Python dictionaries are embedded as insertion-ordered association lists:
`alGet` returns the first binding, `alSet` updates an existing binding in
place or appends a fresh one at the end, `alErase` removes the binding —
exactly the observable behaviour of `dict` (whose keys are unique, so the
first binding is the only one).
-/

namespace ALIVE

/-- First binding for a key, like `d.get(k)`. -/
def alGet {α : Type} : List (String × α) → String → Option α
  | [], _ => none
  | p :: t, k => if p.1 = k then some p.2 else alGet t k

/-- `d[k] = v`: update the existing binding in place, else append at the end. -/
def alSet {α : Type} : List (String × α) → String → α → List (String × α)
  | [], k, v => [(k, v)]
  | p :: t, k, v => if p.1 = k then (k, v) :: t else p :: alSet t k v

/-- `del d[k]` guarded by `k in d`: drop the first binding for `k`, if any. -/
def alErase {α : Type} : List (String × α) → String → List (String × α)
  | [], _ => []
  | p :: t, k => if p.1 = k then t else p :: alErase t k

/-- `needle` is a leading segment of `hay` (character lists). -/
def charsLead : List Char → List Char → Bool
  | [], _ => true
  | _ :: _, [] => false
  | a :: as, b :: bs => a = b && charsLead as bs

/-- `needle` occurs contiguously inside `hay` (character lists). -/
def charsSub (needle : List Char) : List Char → Bool
  | [] => charsLead needle []
  | c :: t => charsLead needle (c :: t) || charsSub needle t

/-- Python's substring test `needle in hay`; the empty needle matches everything. -/
def pyIn (needle hay : String) : Bool := charsSub needle.data hay.data

/-- Python's `str.strip()` (no argument): remove leading and trailing
whitespace.  Implemented over the character list so that it evaluates by
kernel reduction. -/
def pyStrip (s : String) : String :=
  ⟨((s.data.dropWhile Char.isWhitespace).reverse.dropWhile Char.isWhitespace).reverse⟩

/-- ASCII lower-casing of one character, as Python's `str.lower()` acts on
the ASCII range this system uses. -/
def asciiLower (c : Char) : Char :=
  if 'A' ≤ c ∧ c ≤ 'Z' then Char.ofNat (c.toNat + 32) else c

/-- Python's `str.lower()`. -/
def pyLower (s : String) : String := ⟨s.data.map asciiLower⟩

/-- Python's `str.startswith(pre)`. -/
def pyStartsWith (s pre : String) : Bool := charsLead pre.data s.data

/-- Python's character-indexed slice `s[n:]`. -/
def pyDrop (s : String) (n : Nat) : String := ⟨s.data.drop n⟩

/-- Split a character list at every occurrence of `sep`, keeping empty
pieces — the behaviour of Python's `str.split(sep)` with one separator. -/
def splitOnChar (sep : Char) : List Char → List (List Char)
  | [] => [[]]
  | c :: t =>
      if c = sep then [] :: splitOnChar sep t
      else
        match splitOnChar sep t with
        | [] => [[c]]
        | h :: t' => (c :: h) :: t'

/-- Python's `s.split('\n')`. -/
def pySplitNL (s : String) : List String := (splitOnChar '\n' s.data).map (fun l => ⟨l⟩)

/-! ## The A2A event bus (`src/adk/a2a.py`)

Handlers are opaque: the embedding identifies a registered callable by a
numeric id, and `A2A.send` returns the ids it would invoke, in invocation
order, instead of running them.  `A2A.send` itself never mutates the bus in
the source, so the embedding returns only the error-or-trace outcome. -/

abbrev HandlerId := Nat

instance {ε α : Type} [DecidableEq ε] [DecidableEq α] : DecidableEq (Except ε α) := fun a b =>
  match a, b with
  | Except.error e, Except.error f =>
      if h : e = f then isTrue (by rw [h]) else isFalse (by intro hh; injection hh; contradiction)
  | Except.error _, Except.ok _ => isFalse (by intro hh; injection hh)
  | Except.ok _, Except.error _ => isFalse (by intro hh; injection hh)
  | Except.ok x, Except.ok y =>
      if h : x = y then isTrue (by rw [h]) else isFalse (by intro hh; injection hh; contradiction)

/-- One `A2A` object: its per-instance `self.handlers` table and `self.running`. -/
structure A2AInstance where
  handlers : List (String × List HandlerId)
  running : Bool
deriving Repr, DecidableEq

/-- The class-level registries `A2A._instances` and `A2A._global_handlers`. -/
structure A2A where
  instances : List (String × A2AInstance)
  globalHandlers : List (String × List (String × HandlerId))
deriving Repr, DecidableEq

/-- `A2A.__init__`: fresh instance (`handlers = {}`, `running = False`),
registered under its id in `_instances`. -/
def A2A.init (b : A2A) (agent_id : String) : A2A :=
  { b with instances := alSet b.instances agent_id ⟨[], false⟩ }

/-- `A2A.on`: append the handler to the instance's per-type list, and append
`(agent_id, handler)` to `_global_handlers["{agent_id}:{event_type}"]`.
`on` is only ever invoked on a constructed instance, which `init` has
registered, so the `none` branch is unreachable in the modelled system. -/
def A2A.on (b : A2A) (agent_id event_type : String) (h : HandlerId) : A2A :=
  match alGet b.instances agent_id with
  | none => b
  | some inst =>
      let hs1 := alSet inst.handlers event_type ((alGet inst.handlers event_type).getD [] ++ [h])
      let inst1 : A2AInstance := { inst with handlers := hs1 }
      let key := agent_id ++ ":" ++ event_type
      { instances := alSet b.instances agent_id inst1,
        globalHandlers :=
          alSet b.globalHandlers key ((alGet b.globalHandlers key).getD [] ++ [(agent_id, h)]) }

/-- `A2A.start`: set the instance's `running` flag. -/
def A2A.start (b : A2A) (agent_id : String) : A2A :=
  match alGet b.instances agent_id with
  | none => b
  | some inst => { b with instances := alSet b.instances agent_id { inst with running := true } }

/-- `A2A.stop`: clear the instance's `running` flag. -/
def A2A.stop (b : A2A) (agent_id : String) : A2A :=
  match alGet b.instances agent_id with
  | none => b
  | some inst => { b with instances := alSet b.instances agent_id { inst with running := false } }

/-- The `message` argument of `A2A.send`: either not a `dict` at all, or a
`dict` whose relevant values are strings (the `type` value is compared and
spliced into the global-handler key, so only its string value matters). -/
inductive PyMsg where
  | notDict
  | dict (entries : List (String × String))
deriving Repr, DecidableEq

inductive SendErr where
  | notADict
  | missingType
deriving Repr, DecidableEq

/-- `A2A.send`: validate the message, then dispatch.  The instance-table pass
runs only when the target instance exists and `running` is true; the
global-table pass runs unconditionally, filtered on the registrant id.
Returns the handler ids in invocation order. -/
def A2A.send (b : A2A) (to_agent : String) (msg : PyMsg) :
    Except SendErr (List HandlerId) :=
  match msg with
  | PyMsg.notDict => Except.error SendErr.notADict
  | PyMsg.dict entries =>
      match alGet entries "type" with
      | none => Except.error SendErr.missingType
      | some event_type =>
          let instTrace :=
            match alGet b.instances to_agent with
            | some inst => if inst.running then (alGet inst.handlers event_type).getD [] else []
            | none => []
          let key := to_agent ++ ":" ++ event_type
          let globalTrace :=
            (((alGet b.globalHandlers key).getD []).filter (fun p => p.1 == to_agent)).map
              Prod.snd
          Except.ok (instTrace ++ globalTrace)

/-- A bus holding a constructed `librarian` agent with its `NEW_TASK` handler
registered (handler id 0), never started — `running` is still `false`. -/
def busStopped : A2A := (A2A.init ⟨[], []⟩ "librarian").on "librarian" "NEW_TASK" 0

/-- A bus holding a constructed `probe` agent with its `DELEGATED_TASK`
handler registered exactly once (handler id 7), then started. -/
def busStarted : A2A := ((A2A.init ⟨[], []⟩ "probe").on "probe" "DELEGATED_TASK" 7).start "probe"

/-- C2: refuted on the code — a recipient that was never started (its
`running` flag is `false`) still has its registered `NEW_TASK` handler
invoked, because `A2A.on` also placed it in the class-level
`_global_handlers` table and `A2A.send` runs that table's pass without
checking `running`.  The claim says no registered handler is invoked. -/
theorem stopped_recipient_handler_still_invoked :
    (alGet busStopped.instances "librarian").map A2AInstance.running = some false ∧
    A2A.send busStopped "librarian" (PyMsg.dict [("type", "NEW_TASK")]) =
      Except.ok [0] := by
  constructor
  · decide
  · decide

/-- C3: refuted on the code — a started recipient's handler, registered
exactly once via `A2A.on`, is invoked twice by a single `send`: once from
the per-instance table and once more from the class-level table, because
`on` registered it in both.  The claim says exactly once per registration. -/
theorem started_recipient_handler_invoked_twice :
    A2A.send busStarted "probe" (PyMsg.dict [("type", "DELEGATED_TASK")]) =
      Except.ok [7, 7] := by
  decide

/-- C7: a message without a `"type"` key makes `send` fail validation with
the missing-type error, for every bus state and every target; no handler is
invoked (the result carries no invocation trace). -/
theorem send_missing_type_always_fails (b : A2A) (to_agent : String)
    (entries : List (String × String)) (h : alGet entries "type" = none) :
    A2A.send b to_agent (PyMsg.dict entries) = Except.error SendErr.missingType := by
  simp only [A2A.send, h]

theorem send_missing_type_always_fails_witness :
    alGet ([("task_id", "T1")] : List (String × String)) "type" = none ∧
    A2A.send busStarted "probe" (PyMsg.dict [("task_id", "T1")]) =
      Except.error SendErr.missingType := by
  refine ⟨by decide, ?_⟩
  exact send_missing_type_always_fails busStarted "probe" [("task_id", "T1")] (by decide)

/-- C9: a non-dict message makes `send` fail with the dedicated
not-a-dictionary `ValueError` for every bus state and every target — the
failure precedes the `type` validation (the error is raised without ever
consulting a `type` field) and no handler is invoked, so no bus or
coordinator state can change. -/
theorem send_non_dict_always_value_error (b : A2A) (to_agent : String) :
    A2A.send b to_agent PyMsg.notDict = Except.error SendErr.notADict := rfl

/-! ## The capability roster and router (`src/agents/librarian.py`)

`LibrarianAgent._load_roster` parses `docs/agent_roster.md` line by line into
a map from agent id to its record; `LibrarianAgent._route_task` scans that
map for the first capability keyword occurring in the lower-cased payload. -/

/-- One roster record, as built by `_load_roster`. -/
structure AgentInfo where
  agent_id : String
  capabilities : List String
  permissions : List String
deriving Repr, DecidableEq

inductive RSec where
  | capabilities
  | permissions
deriving Repr, DecidableEq

/-- The parser's loop state: the accumulated `agents` dict, `current_agent`
(`none` models Python's `None`; note a bare `##` header stores `some ""`,
which is as falsy as `None` in every later check), and `current_section`. -/
structure RState where
  agents : List (String × AgentInfo)
  cur : Option String
  sec : Option RSec
deriving Repr, DecidableEq

/-- Python truthiness of `current_agent`: neither `None` nor the empty string. -/
def pyTruthy : Option String → Bool
  | none => false
  | some s => !(s == "")

/-- `agents[current_agent][current_section].append(item)`.  The `none` branch
is unreachable: whenever `current_agent` is truthy its record was created by
the `##` header that set it, so the key is present. -/
def rosterAddItem (agents : List (String × AgentInfo)) (ca : String) (s : RSec)
    (item : String) : List (String × AgentInfo) :=
  match alGet agents ca with
  | none => agents
  | some info =>
      let info1 :=
        match s with
        | RSec.capabilities => { info with capabilities := info.capabilities ++ [item] }
        | RSec.permissions => { info with permissions := info.permissions ++ [item] }
      alSet agents ca info1

/-- One iteration of `_load_roster`'s `for line in lines` loop. -/
def rosterStep (st : RState) (line : String) : RState :=
  let stripped := pyStrip line
  if pyStartsWith stripped "##" && !(pyStartsWith stripped "###") then
    let ca := pyStrip (pyDrop stripped 2)
    if ca = "" then { st with cur := some ca }
    else { agents := alSet st.agents ca ⟨ca, [], []⟩, cur := some ca, sec := st.sec }
  else if pyTruthy st.cur && pyIn ":" stripped && !(pyStartsWith stripped "-") then
    if pyIn "capabilities" (pyLower stripped) then { st with sec := some RSec.capabilities }
    else if pyIn "permissions" (pyLower stripped) then { st with sec := some RSec.permissions }
    else st
  else if pyTruthy st.cur && st.sec.isSome && pyStartsWith stripped "-" then
    let item := pyStrip (pyDrop stripped 1)
    if item = "" then st
    else
      match st.cur, st.sec with
      | some ca, some s => { st with agents := rosterAddItem st.agents ca s item }
      | _, _ => st
  else st

/-- `LibrarianAgent._load_roster` on the roster document's text: split on
newlines, run the line loop, return the accumulated agent map. -/
def load_roster (roster_content : String) : List (String × AgentInfo) :=
  ((pySplitNL roster_content).foldl rosterStep ⟨[], none, none⟩).agents

/-- The inner loop of `_route_task`: scan agents in map order, skip the
coordinator's own id, return the first agent with a capability whose
trimmed, lower-cased text occurs in the lower-cased payload. -/
def routeGo : List (String × AgentInfo) → String → String
  | [], _ => "librarian"
  | (aid, info) :: rest, payload_lower =>
      if aid = "librarian" then routeGo rest payload_lower
      else if info.capabilities.any (fun c => pyIn (pyLower (pyStrip c)) payload_lower) then aid
      else routeGo rest payload_lower

/-- `LibrarianAgent._route_task`. -/
def route_task (roster : List (String × AgentInfo)) (payload : String) : String :=
  routeGo roster (pyLower payload)

/-- C5: `_route_task` is exactly the first-match scan the spec describes — it
returns the first agent in map order, the coordinator's own id excluded,
one of whose capability keywords occurs (trimmed, case-insensitively) as a
substring of the payload, and falls back to `"librarian"` when no agent
matches, in particular on the empty capability map.  Being a function of
`(roster, payload)`, it is deterministic. -/
theorem route_task_first_match (roster : List (String × AgentInfo)) (payload : String) :
    route_task roster payload =
      ((roster.find? (fun p =>
          !(p.1 == "librarian") &&
            p.2.capabilities.any (fun c => pyIn (pyLower (pyStrip c)) (pyLower payload)))).map
        Prod.fst).getD "librarian" := by
  unfold route_task
  induction roster with
  | nil => rfl
  | cons hd tl ih =>
      obtain ⟨aid, info⟩ := hd
      by_cases hself : aid = "librarian"
      · subst hself
        simpa [routeGo, List.find?] using ih
      · have hb : (aid == "librarian") = false := by simp [hself]
        by_cases hmatch :
          info.capabilities.any (fun c => pyIn (pyLower (pyStrip c)) (pyLower payload)) = true
        · simp [routeGo, List.find?, hself, hb, hmatch]
        · simpa [routeGo, List.find?, hself, hb, hmatch] using ih

/-! ### Association-list lemmas -/

theorem mem_alSet {α : Type} {l : List (String × α)} {k : String} {v : α} {p : String × α}
    (h : p ∈ alSet l k v) : p = (k, v) ∨ p ∈ l := by
  induction l with
  | nil => simpa [alSet] using h
  | cons hd tl ih =>
      simp only [alSet] at h
      by_cases hk : hd.1 = k
      · rw [if_pos hk] at h
        rcases List.mem_cons.mp h with h1 | h1
        · exact Or.inl h1
        · exact Or.inr (List.mem_cons_of_mem _ h1)
      · rw [if_neg hk] at h
        rcases List.mem_cons.mp h with h1 | h1
        · exact Or.inr (by simp [h1])
        · rcases ih h1 with h2 | h2
          · exact Or.inl h2
          · exact Or.inr (List.mem_cons_of_mem _ h2)

theorem alGet_mem {α : Type} {l : List (String × α)} {k : String} {v : α}
    (h : alGet l k = some v) : (k, v) ∈ l := by
  induction l with
  | nil => simp [alGet] at h
  | cons hd tl ih =>
      simp only [alGet] at h
      by_cases hk : hd.1 = k
      · rw [if_pos hk] at h
        injection h with h
        have : (k, v) = hd := by
          rw [← hk, ← h]
        simp [this]
      · rw [if_neg hk] at h
        exact List.mem_cons_of_mem _ (ih h)

/-- Every record in the map has only non-empty capability and permission
keywords. -/
def rosterGood (agents : List (String × AgentInfo)) : Prop :=
  ∀ p ∈ agents, (∀ c ∈ p.2.capabilities, c ≠ "") ∧ (∀ q ∈ p.2.permissions, q ≠ "")

theorem rosterGood_alSet {agents : List (String × AgentInfo)} {k : String} {v : AgentInfo}
    (hg : rosterGood agents) (hc : ∀ c ∈ v.capabilities, c ≠ "")
    (hq : ∀ q ∈ v.permissions, q ≠ "") : rosterGood (alSet agents k v) := by
  intro p hp
  rcases mem_alSet hp with h | h
  · subst h; exact ⟨hc, hq⟩
  · exact hg p h

theorem rosterGood_addItem {agents : List (String × AgentInfo)} {ca item : String} {s : RSec}
    (hg : rosterGood agents) (hi : item ≠ "") : rosterGood (rosterAddItem agents ca s item) := by
  unfold rosterAddItem
  cases hget : alGet agents ca with
  | none => exact hg
  | some info =>
      have hinfo := hg _ (alGet_mem hget)
      cases s with
      | capabilities =>
          refine rosterGood_alSet hg ?_ hinfo.2
          intro c hc
          rcases List.mem_append.mp hc with h | h
          · exact hinfo.1 c h
          · have hce : c = item := by simpa using h
            simpa [hce] using hi
      | permissions =>
          refine rosterGood_alSet hg hinfo.1 ?_
          intro q hq
          rcases List.mem_append.mp hq with h | h
          · exact hinfo.2 q h
          · have hqe : q = item := by simpa using h
            simpa [hqe] using hi

theorem rosterGood_step (st : RState) (line : String) (hg : rosterGood st.agents) :
    rosterGood (rosterStep st line).agents := by
  obtain ⟨ags, cur, sec⟩ := st
  simp only [rosterStep] at hg ⊢
  cases cur with
  | none =>
      split_ifs with h1 h2 h3 h4 h5 h6
      all_goals first
        | exact hg
        | exact rosterGood_alSet hg (by intro c hc; simp at hc) (by intro q hq; simp at hq)
  | some ca =>
      cases sec with
      | none =>
          split_ifs with h1 h2 h3 h4 h5 h6
          all_goals first
            | exact hg
            | exact rosterGood_alSet hg (by intro c hc; simp at hc) (by intro q hq; simp at hq)
      | some s =>
          split_ifs with h1 h2 h3 h4 h5 h6
          all_goals first
            | exact hg
            | exact rosterGood_alSet hg (by intro c hc; simp at hc) (by intro q hq; simp at hq)
            | exact rosterGood_addItem hg (by assumption)

theorem rosterGood_foldl (lines : List String) (st : RState) (hg : rosterGood st.agents) :
    rosterGood ((lines.foldl rosterStep st).agents) := by
  induction lines generalizing st with
  | nil => exact hg
  | cons hd tl ih => exact ih _ (rosterGood_step st hd hg)

/-- C10: for every roster document, the map `_load_roster` builds contains
only non-empty capability and permission keywords — blank bullet items are
discarded by the `if item:` guard — so `_route_task` can never match an
empty keyword vacuously against every payload. -/
theorem load_roster_keywords_nonempty (roster_content : String) :
    rosterGood (load_roster roster_content) := by
  unfold load_roster
  exact rosterGood_foldl _ _ (by intro p hp; simp at hp)

/-- A small concrete roster exercising the parser. -/
def rosterDoc : String :=
  "# Agent Roster\n## probe\ncapabilities:\n- ping\n-   \npermissions:\n- write_logs\n"

theorem load_roster_keywords_nonempty_witness :
    rosterGood (load_roster rosterDoc) :=
  load_roster_keywords_nonempty rosterDoc

/-! ## Storage and the consolidation pipeline (`src/agents/librarian.py`)

Storage (`src/adk/skills/file_tools.py` over the filesystem) is a map from
path to text.  The filesystem is external, so its faults are injected
explicitly: `readFails` (the temp spec exists but `read_file` raises),
`appendFails` (any exception inside `_append_to_active_spec`, e.g.
`write_file` raising `IOError`), `writeLost` (`write_file` returns without
error but the data never becomes durable — the partial/lost write that
`_verify_consolidation` exists to catch), and `deleteFails` (`delete_file`
of the temp spec raises).  Each flag describes the fate of that operation
within the one pipeline invocation being modelled. -/

structure FS where
  files : List (String × String)
deriving Repr, DecidableEq

def FS.read (fs : FS) (p : String) : Option String := alGet fs.files p

def FS.write (fs : FS) (p c : String) : FS := ⟨alSet fs.files p c⟩

def FS.del (fs : FS) (p : String) : FS := ⟨alErase fs.files p⟩

structure Faults where
  readFails : Bool
  appendFails : Bool
  writeLost : Bool
  deleteFails : Bool
deriving Repr, DecidableEq

def noFault : Faults := ⟨false, false, false, false⟩

inductive Status where
  | routing
  | delegated
  | completed
deriving Repr, DecidableEq

/-- One entry of `self.active_tasks`. -/
structure Task where
  task_id : String
  payload : String
  status : Status
  assigned_agent : Option String
deriving Repr, DecidableEq

/-- The Librarian's mutable state: `self.active_tasks` (task id → record) and
`self.completion_queue` (list of `(agent_id, task_id)` pairs). -/
structure LibState where
  active_tasks : List (String × Task)
  completion_queue : List (String × String)
deriving Repr, DecidableEq

/-- Coordinator state plus the Storage it talks to and the module-level task
counter of `src/adk/skills/task_tools.py`. -/
structure Config where
  lib : LibState
  fs : FS
  counter : Nat
deriving Repr, DecidableEq

/-- `self.logs_path / f"{agent_id}_{task_id}_spec.md"`. -/
def specPath (agent_id task_id : String) : String :=
  "logs/" ++ agent_id ++ "_" ++ task_id ++ "_spec.md"

/-- `self.active_spec_path`. -/
def activeSpecPath : String := "logs/active_spec.md"

/-- `LibrarianAgent._append_to_active_spec`: read the aggregate (or take the
initial header), build `existing + separator + content + "\n"`, write it
back.  `none` models the exception that the caller's `try/except` catches;
`writeLost` models a write that reports success without persisting. -/
def append_to_active_spec (f : Faults) (fs : FS) (content agent_id task_id : String) :
    Option FS :=
  if f.appendFails then none
  else if f.writeLost then some fs
  else
    some (fs.write activeSpecPath
      ((match fs.read activeSpecPath with
        | some c => c
        | none => "# Active Specification\n\n") ++
        ("\n\n---\n## Task: " ++ task_id ++ " (by " ++ agent_id ++ ")\n\n") ++ content ++ "\n"))

/-- `LibrarianAgent._verify_consolidation`: the aggregate exists and contains
the trimmed content as a substring. -/
def verify_consolidation (fs : FS) (content : String) : Bool :=
  match fs.read activeSpecPath with
  | none => false
  | some acc => pyIn (pyStrip content) acc

/-- `LibrarianAgent._cleanup_task`: delete the task record if present and
drop every completion-queue entry carrying this task id. -/
def cleanup_task (L : LibState) (task_id : String) : LibState :=
  { active_tasks := alErase L.active_tasks task_id,
    completion_queue := L.completion_queue.filter (fun it => !(it.2 == task_id)) }

/-- `LibrarianAgent._collect_and_consolidate_spec`, in the source's strict
order: locate the temp spec, read it, reject empty content (best-effort
deleting the file), append to the aggregate (returning without cleanup if
the append raises), verify, delete the temp spec only on verified success
(swallowing delete errors), and finally clean up the task. -/
def collect_and_consolidate_spec (f : Faults) (cfg : Config) (agent_id task_id : String) :
    Config :=
  match cfg.fs.read (specPath agent_id task_id) with
  | none => ⟨cleanup_task cfg.lib task_id, cfg.fs, cfg.counter⟩
  | some spec_content =>
      if f.readFails then ⟨cleanup_task cfg.lib task_id, cfg.fs, cfg.counter⟩
      else if pyStrip spec_content = "" then
        ⟨cleanup_task cfg.lib task_id,
          if f.deleteFails then cfg.fs else cfg.fs.del (specPath agent_id task_id),
          cfg.counter⟩
      else
        match append_to_active_spec f cfg.fs spec_content agent_id task_id with
        | none => cfg
        | some fs1 =>
            ⟨cleanup_task cfg.lib task_id,
              if verify_consolidation fs1 spec_content then
                (if f.deleteFails then fs1 else fs1.del (specPath agent_id task_id))
              else fs1,
              cfg.counter⟩

/-- `LibrarianAgent._handle_task_complete`: ignore messages with a falsy
`agent_id` or `task_id`; ignore duplicates for tasks already `completed`;
otherwise mark the task completed (when known), enqueue the pair and run the
consolidation pipeline. -/
def handle_task_complete (f : Faults) (cfg : Config) (agent_id task_id : Option String) :
    Config :=
  if agent_id.getD "" = "" ∨ task_id.getD "" = "" then cfg
  else
    match alGet cfg.lib.active_tasks (task_id.getD "") with
    | some t =>
        if t.status = Status.completed then cfg
        else
          collect_and_consolidate_spec f
            ⟨⟨alSet cfg.lib.active_tasks (task_id.getD "") ⟨t.task_id, t.payload, Status.completed, t.assigned_agent⟩,
                cfg.lib.completion_queue ++ [(agent_id.getD "", task_id.getD "")]⟩,
              cfg.fs, cfg.counter⟩
            (agent_id.getD "") (task_id.getD "")
    | none =>
        collect_and_consolidate_spec f
          ⟨⟨cfg.lib.active_tasks,
              cfg.lib.completion_queue ++ [(agent_id.getD "", task_id.getD "")]⟩,
            cfg.fs, cfg.counter⟩
          (agent_id.getD "") (task_id.getD "")

/-- `generate_task_id`'s zero-padded counter format `TASK-{n:03d}`. -/
def pad3 (n : Nat) : String :=
  if n < 10 then "00" ++ toString n
  else if n < 100 then "0" ++ toString n
  else toString n

/-- The task id `_handle_new_task` ends up using: the message's `task_id`
unless it is falsy (absent or empty), in which case `generate_task_id()`. -/
def effTaskId (cfg : Config) (task_id : Option String) : String :=
  if task_id.getD "" = "" then "TASK-" ++ pad3 (cfg.counter + 1) else task_id.getD ""

/-- `LibrarianAgent._handle_new_task`: store the task as `routing`, route the
payload, set `assigned_agent` and `delegated`, then publish DELEGATED_TASK.
The publish mutates no coordinator state (the librarian registers no
DELEGATED_TASK handler); a worker's synchronous completion call-back is
modelled as a separate `handle_task_complete` step, which reaches the same
states run-to-completion dispatch does. -/
def handle_new_task (roster : List (String × AgentInfo)) (cfg : Config)
    (task_id payload : Option String) : Config :=
  ⟨⟨alSet
        (alSet cfg.lib.active_tasks (effTaskId cfg task_id)
          ⟨effTaskId cfg task_id, payload.getD "", Status.routing, none⟩)
        (effTaskId cfg task_id)
        ⟨effTaskId cfg task_id, payload.getD "", Status.delegated,
          some (route_task roster (payload.getD ""))⟩,
      cfg.lib.completion_queue⟩,
    cfg.fs,
    if task_id.getD "" = "" then cfg.counter + 1 else cfg.counter⟩

/-- One coordinator handler invocation, as delivered by the bus. -/
inductive Ev where
  | newTask (task_id payload : Option String)
  | taskComplete (agent_id task_id : Option String) (f : Faults)
deriving Repr, DecidableEq

def step (roster : List (String × AgentInfo)) (cfg : Config) : Ev → Config
  | Ev.newTask t p => handle_new_task roster cfg t p
  | Ev.taskComplete a t f => handle_task_complete f cfg a t

/-- The stage order `ROUTING < DELEGATED < COMPLETED`. -/
def stOrd : Status → Nat
  | Status.routing => 0
  | Status.delegated => 1
  | Status.completed => 2

/-- Well-formedness of the live task table: keys are unique (it embeds a
Python dict) and no task is at rest in `routing` — `_handle_new_task` always
reaches `delegated` before returning. -/
def tasksWF (l : List (String × Task)) : Prop :=
  (l.map Prod.fst).Nodup ∧ ∀ p ∈ l, p.2.status ≠ Status.routing

/-- The effective `NEW_TASK` id is not already tracked; `TASK_COMPLETE`
carries no freshness obligation. -/
def freshEv (cfg : Config) : Ev → Prop
  | Ev.newTask t _ => alGet cfg.lib.active_tasks (effTaskId cfg t) = none
  | Ev.taskComplete _ _ _ => True

/-! ### More association-list lemmas -/

theorem alGet_alSet_self {α : Type} (l : List (String × α)) (k : String) (v : α) :
    alGet (alSet l k v) k = some v := by
  induction l with
  | nil => simp [alGet, alSet]
  | cons hd tl ih =>
      by_cases hk : hd.1 = k
      · simp [alGet, alSet, hk]
      · simp [alGet, alSet, hk, ih]

theorem alGet_alSet_ne {α : Type} (l : List (String × α)) {k k' : String} (v : α)
    (h : k' ≠ k) : alGet (alSet l k v) k' = alGet l k' := by
  have hk' : ¬k = k' := fun hh => h hh.symm
  induction l with
  | nil => simp [alGet, alSet, hk']
  | cons hd tl ih =>
      by_cases hk : hd.1 = k
      · have hk2 : ¬hd.1 = k' := by rw [hk]; exact hk'
        simp [alGet, alSet, hk, hk', hk2]
      · by_cases hk2 : hd.1 = k'
        · simp [alGet, alSet, hk, hk2, h]
        · simp [alGet, alSet, hk, hk2, ih]

theorem alGet_alErase_ne {α : Type} (l : List (String × α)) {k k' : String}
    (h : k' ≠ k) : alGet (alErase l k) k' = alGet l k' := by
  have hk' : ¬k = k' := fun hh => h hh.symm
  induction l with
  | nil => simp [alGet, alErase]
  | cons hd tl ih =>
      by_cases hk : hd.1 = k
      · have hk2 : ¬hd.1 = k' := by rw [hk]; exact hk'
        simp [alGet, alErase, hk, hk', hk2]
      · by_cases hk2 : hd.1 = k'
        · simp [alGet, alErase, hk, hk2, h]
        · simp [alGet, alErase, hk, hk2, ih]

theorem alErase_sublist {α : Type} (l : List (String × α)) (k : String) :
    List.Sublist (alErase l k) l := by
  induction l with
  | nil => simp [alErase]
  | cons hd tl ih =>
      by_cases hk : hd.1 = k
      · simp only [alErase, if_pos hk]
        exact List.sublist_cons_of_sublist hd (List.Sublist.refl tl)
      · simp only [alErase, if_neg hk]
        exact List.Sublist.cons₂ hd ih

theorem alGet_eq_none_of_not_mem_keys {α : Type} {l : List (String × α)} {k : String}
    (h : k ∉ l.map Prod.fst) : alGet l k = none := by
  induction l with
  | nil => rfl
  | cons hd tl ih =>
      simp only [List.map_cons, List.mem_cons] at h
      push_neg at h
      have hne : ¬hd.1 = k := fun hh => h.1 hh.symm
      simp only [alGet, if_neg hne, ih h.2]

theorem alGet_alErase_self {α : Type} {l : List (String × α)} {k : String}
    (hnd : (l.map Prod.fst).Nodup) : alGet (alErase l k) k = none := by
  induction l with
  | nil => rfl
  | cons hd tl ih =>
      simp only [List.map_cons, List.nodup_cons] at hnd
      by_cases hk : hd.1 = k
      · simp only [alErase, if_pos hk]
        exact alGet_eq_none_of_not_mem_keys (by rw [← hk]; exact hnd.1)
      · simp only [alErase, if_neg hk, alGet, if_neg hk]
        exact ih hnd.2

theorem alSet_keys_nodup {α : Type} {l : List (String × α)} (k : String) (v : α)
    (hnd : (l.map Prod.fst).Nodup) : ((alSet l k v).map Prod.fst).Nodup := by
  induction l with
  | nil => simp [alSet]
  | cons hd tl ih =>
      simp only [List.map_cons, List.nodup_cons] at hnd
      by_cases hk : hd.1 = k
      · simp only [alSet, if_pos hk, List.map_cons, List.nodup_cons]
        exact ⟨by rw [← hk]; exact hnd.1, hnd.2⟩
      · simp only [alSet, if_neg hk, List.map_cons, List.nodup_cons]
        refine ⟨?_, ih hnd.2⟩
        intro hmem
        rcases List.mem_map.mp hmem with ⟨q, hq, hq1⟩
        rcases mem_alSet hq with h1 | h1
        · exact hk (by rw [h1] at hq1; exact hq1.symm)
        · exact hnd.1 (List.mem_map.mpr ⟨q, h1, hq1⟩)

theorem mem_filter_queue {l : List (String × String)} {t : String} :
    ∀ it ∈ l.filter (fun it => !(it.2 == t)), it.2 ≠ t := by
  intro it hit
  have := List.of_mem_filter hit
  simpa using this

/-! ### Pipeline shape lemmas -/

/-- The pipeline either aborts with the whole configuration untouched beyond
what the caller already did (the append-failure branch) or ends in cleanup;
in every branch the counter is unchanged. -/
theorem collect_lib_cases (f : Faults) (cfg : Config) (agent_id task_id : String) :
    (collect_and_consolidate_spec f cfg agent_id task_id).lib = cfg.lib ∨
      (collect_and_consolidate_spec f cfg agent_id task_id).lib =
        cleanup_task cfg.lib task_id := by
  unfold collect_and_consolidate_spec
  cases hr : cfg.fs.read (specPath agent_id task_id) with
  | none => exact Or.inr rfl
  | some spec_content =>
      dsimp only
      by_cases h1 : f.readFails = true
      · rw [if_pos h1]
        exact Or.inr rfl
      · rw [if_neg h1]
        by_cases h2 : pyStrip spec_content = ""
        · rw [if_pos h2]
          exact Or.inr rfl
        · rw [if_neg h2]
          cases ha : append_to_active_spec f cfg.fs spec_content agent_id task_id with
          | none => exact Or.inl rfl
          | some fs1 => exact Or.inr rfl

/-- C8: when the temp artifact is absent, the pipeline leaves Storage
entirely unchanged (no write, no delete — the aggregate and every other blob
keep their contents) and still retires the task: its id leaves the active
set and every completion-queue entry bearing it is dropped. -/
theorem consolidation_absent_artifact_frame (f : Faults) (cfg : Config)
    (agent_id task_id : String)
    (hnd : (cfg.lib.active_tasks.map Prod.fst).Nodup)
    (habs : cfg.fs.read (specPath agent_id task_id) = none) :
    (collect_and_consolidate_spec f cfg agent_id task_id).fs = cfg.fs ∧
      alGet (collect_and_consolidate_spec f cfg agent_id task_id).lib.active_tasks task_id =
        none ∧
      ∀ it ∈ (collect_and_consolidate_spec f cfg agent_id task_id).lib.completion_queue,
        it.2 ≠ task_id := by
  unfold collect_and_consolidate_spec
  rw [habs]
  refine ⟨rfl, ?_, ?_⟩
  · exact alGet_alErase_self hnd
  · exact mem_filter_queue

def cfgNoTemp : Config :=
  ⟨⟨[("T1", ⟨"T1", "p", Status.delegated, some "probe"⟩)], [("probe", "T1")]⟩, ⟨[]⟩, 0⟩

theorem consolidation_absent_artifact_frame_witness :
    (collect_and_consolidate_spec noFault cfgNoTemp "probe" "T1").fs = cfgNoTemp.fs ∧
      alGet (collect_and_consolidate_spec noFault cfgNoTemp "probe" "T1").lib.active_tasks
          "T1" = none ∧
      ∀ it ∈ (collect_and_consolidate_spec noFault cfgNoTemp "probe" "T1").lib.completion_queue,
        it.2 ≠ "T1" :=
  consolidation_absent_artifact_frame noFault cfgNoTemp "probe" "T1" (by decide) (by decide)

/-- C6: after a successful append the pipeline always runs cleanup — the task
id leaves the active set and the completion queue — and the temp artifact's
fate follows verification: on verification failure Storage stays exactly the
post-append state `fs1` (the temp artifact is not deleted), on success the
temp artifact is deleted unless the delete itself fails, which is
swallowed. -/
theorem consolidation_verification_branches (f : Faults) (cfg : Config)
    (agent_id task_id spec_content : String) (fs1 : FS)
    (hnd : (cfg.lib.active_tasks.map Prod.fst).Nodup)
    (hread : cfg.fs.read (specPath agent_id task_id) = some spec_content)
    (hrf : f.readFails = false)
    (hne : pyStrip spec_content ≠ "")
    (happ : append_to_active_spec f cfg.fs spec_content agent_id task_id = some fs1) :
    alGet (collect_and_consolidate_spec f cfg agent_id task_id).lib.active_tasks task_id =
        none ∧
      (∀ it ∈ (collect_and_consolidate_spec f cfg agent_id task_id).lib.completion_queue,
        it.2 ≠ task_id) ∧
      (verify_consolidation fs1 spec_content = false →
        (collect_and_consolidate_spec f cfg agent_id task_id).fs = fs1) ∧
      (verify_consolidation fs1 spec_content = true →
        (collect_and_consolidate_spec f cfg agent_id task_id).fs =
          if f.deleteFails then fs1 else fs1.del (specPath agent_id task_id)) := by
  unfold collect_and_consolidate_spec
  rw [hread]
  simp only [hrf, Bool.false_eq_true, if_false, if_neg hne, happ]
  refine ⟨alGet_alErase_self hnd, mem_filter_queue, ?_, ?_⟩
  · intro hv
    simp [hv]
  · intro hv
    simp [hv]

/-- Delegated task `T1`, temp artifact present with non-empty body. -/
def fsWithTemp : FS := ⟨[(specPath "probe" "T1", "body")]⟩

def cfgDelegated : Config :=
  ⟨⟨[("T1", ⟨"T1", "p", Status.delegated, some "probe"⟩)], []⟩, fsWithTemp, 0⟩

/-- The write reports success but the data is lost, so verification fails. -/
def lostWrite : Faults := ⟨false, false, true, false⟩

theorem consolidation_verification_branches_witness :
    alGet (collect_and_consolidate_spec lostWrite cfgDelegated "probe" "T1").lib.active_tasks
        "T1" = none ∧
      (∀ it ∈ (collect_and_consolidate_spec lostWrite cfgDelegated "probe" "T1").lib.completion_queue,
        it.2 ≠ "T1") ∧
      (verify_consolidation cfgDelegated.fs "body" = false →
        (collect_and_consolidate_spec lostWrite cfgDelegated "probe" "T1").fs =
          cfgDelegated.fs) ∧
      (verify_consolidation cfgDelegated.fs "body" = true →
        (collect_and_consolidate_spec lostWrite cfgDelegated "probe" "T1").fs =
          if lostWrite.deleteFails then cfgDelegated.fs
          else cfgDelegated.fs.del (specPath "probe" "T1")) :=
  consolidation_verification_branches lostWrite cfgDelegated "probe" "T1" "body"
    cfgDelegated.fs (by decide) (by decide) (by decide) (by decide) (by decide)

/-- The aggregate append raises (e.g. `write_file` hits an `IOError`). -/
def failAppend : Faults := ⟨false, true, false, false⟩

/-- `cfgDelegated` after `TASK_COMPLETE{probe, T1}` whose append failed:
`T1` is retained in the active set with status `completed`, the completion
queue keeps the pair, the temp artifact survives, no aggregate exists. -/
def cfgAfterFailedAppend : Config :=
  handle_task_complete failAppend cfgDelegated (some "probe") (some "T1")

/-- C1: refuted on the code — after an append failure the task is indeed
retained (with the temp artifact and no aggregate write), but its status was
already set to `completed` before the pipeline ran, so the subsequent
`TASK_COMPLETE` with the same `agent_id`/`task_id` — and fully healthy
Storage — hits the duplicate guard in `_handle_task_complete` and returns
with the configuration bit-for-bit unchanged: the pipeline is never
re-entered, the append never completes, and the task is never removed from
the active set.  This contradicts the claim and the code's own comment
`Append failure - do not delete spec file, allow retry`. -/
theorem retry_after_failed_append_is_blocked :
    (alGet cfgAfterFailedAppend.lib.active_tasks "T1").map Task.status =
        some Status.completed ∧
      cfgAfterFailedAppend.fs.read (specPath "probe" "T1") = some "body" ∧
      cfgAfterFailedAppend.fs.read activeSpecPath = none ∧
      handle_task_complete noFault cfgAfterFailedAppend (some "probe") (some "T1") =
        cfgAfterFailedAppend := by
  refine ⟨by decide, by decide, by decide, by decide⟩

/-- C4 counterexample: from `cfgAfterFailedAppend` — a reachable state, being
two handler invocations from an initial state — a `NEW_TASK` carrying the
externally supplied id `T1` overwrites the retained record, so `T1`'s status
moves from `COMPLETED` back to `DELEGATED`: a strictly backwards transition
under `ROUTING < DELEGATED < COMPLETED`. -/
theorem completed_status_regresses_on_new_task_reuse :
    (alGet cfgAfterFailedAppend.lib.active_tasks "T1").map Task.status =
        some Status.completed ∧
      (alGet (handle_new_task [] cfgAfterFailedAppend (some "T1")
            (some "p2")).lib.active_tasks "T1").map Task.status =
        some Status.delegated ∧
      stOrd Status.delegated < stOrd Status.completed := by
  refine ⟨by decide, by decide, by decide⟩

/-! ### Monotonicity of the task lifecycle -/

theorem alSet_alSet_self {α : Type} (l : List (String × α)) (k : String) (v w : α) :
    alSet (alSet l k v) k w = alSet l k w := by
  induction l with
  | nil => simp [alSet]
  | cons hd tl ih =>
      by_cases hk : hd.1 = k
      · simp [alSet, hk]
      · simp [alSet, hk, ih]

theorem tasksWF_sublist {l' l : List (String × Task)} (hsub : List.Sublist l' l)
    (hwf : tasksWF l) : tasksWF l' := by
  refine ⟨List.Nodup.sublist (List.Sublist.map Prod.fst hsub) hwf.1, ?_⟩
  intro p hp
  exact hwf.2 p (List.Sublist.mem hp hsub)

theorem tasksWF_alSet {l : List (String × Task)} {k : String} {v : Task}
    (hwf : tasksWF l) (hv : v.status ≠ Status.routing) : tasksWF (alSet l k v) := by
  refine ⟨alSet_keys_nodup k v hwf.1, ?_⟩
  intro p hp
  rcases mem_alSet hp with h | h
  · rw [h]
    exact hv
  · exact hwf.2 p h

/-- C4 amended: one handler invocation never moves a surviving task's status
backwards or forward by more than one stage, provided the invocation is not
a `NEW_TASK` reusing an id already in the active set (such a reuse resets
the record, which the counterexample shows can regress `COMPLETED` to
`DELEGATED`), and provided no resting task is in `ROUTING` with unique
ids — a well-formedness that every invocation preserves, as the same
theorem states, and that holds in the empty initial state. -/
theorem status_monotonic_step (roster : List (String × AgentInfo)) (cfg : Config) (ev : Ev)
    (hwf : tasksWF cfg.lib.active_tasks) (hfresh : freshEv cfg ev) :
    tasksWF (step roster cfg ev).lib.active_tasks ∧
      ∀ tid t t', alGet cfg.lib.active_tasks tid = some t →
        alGet (step roster cfg ev).lib.active_tasks tid = some t' →
        stOrd t.status ≤ stOrd t'.status ∧ stOrd t'.status ≤ stOrd t.status + 1 := by
  cases ev with
  | newTask tidm pl =>
      have hfr : alGet cfg.lib.active_tasks (effTaskId cfg tidm) = none := hfresh
      simp only [step, handle_new_task]
      rw [alSet_alSet_self]
      constructor
      · exact tasksWF_alSet hwf (by intro hcon; cases hcon)
      · intro tid t t' h1 h2
        by_cases htid : tid = effTaskId cfg tidm
        · rw [htid, hfr] at h1
          cases h1
        · rw [alGet_alSet_ne _ _ htid] at h2
          rw [h1] at h2
          injection h2 with h2
          rw [← h2]
          exact ⟨Nat.le_refl _, Nat.le_succ _⟩
  | taskComplete am tm f =>
      simp only [step, handle_task_complete]
      by_cases hfal : am.getD "" = "" ∨ tm.getD "" = ""
      · rw [if_pos hfal]
        refine ⟨hwf, ?_⟩
        intro tid t t' h1 h2
        rw [h1] at h2
        injection h2 with h2
        rw [← h2]
        exact ⟨Nat.le_refl _, Nat.le_succ _⟩
      · rw [if_neg hfal]
        cases hget : alGet cfg.lib.active_tasks (tm.getD "") with
        | none =>
            dsimp only
            rcases collect_lib_cases f
                ⟨⟨cfg.lib.active_tasks,
                    cfg.lib.completion_queue ++ [(am.getD "", tm.getD "")]⟩,
                  cfg.fs, cfg.counter⟩
                (am.getD "") (tm.getD "") with hcoll | hcoll
            · rw [hcoll]
              refine ⟨hwf, ?_⟩
              intro tid t t' h1 h2
              rw [h1] at h2
              injection h2 with h2
              rw [← h2]
              exact ⟨Nat.le_refl _, Nat.le_succ _⟩
            · rw [hcoll]
              dsimp only [cleanup_task]
              refine ⟨tasksWF_sublist (alErase_sublist _ _) hwf, ?_⟩
              intro tid t t' h1 h2
              by_cases htid : tid = tm.getD ""
              · rw [htid, hget] at h1
                cases h1
              · rw [alGet_alErase_ne _ htid] at h2
                rw [h1] at h2
                injection h2 with h2
                rw [← h2]
                exact ⟨Nat.le_refl _, Nat.le_succ _⟩
        | some t0 =>
            dsimp only
            by_cases hc : t0.status = Status.completed
            · rw [if_pos hc]
              refine ⟨hwf, ?_⟩
              intro tid t t' h1 h2
              rw [h1] at h2
              injection h2 with h2
              rw [← h2]
              exact ⟨Nat.le_refl _, Nat.le_succ _⟩
            · rw [if_neg hc]
              have hnr : t0.status ≠ Status.routing :=
                hwf.2 (tm.getD "", t0) (alGet_mem hget)
              have hwf2 :
                  tasksWF (alSet cfg.lib.active_tasks (tm.getD "")
                    ⟨t0.task_id, t0.payload, Status.completed, t0.assigned_agent⟩) :=
                tasksWF_alSet hwf (by intro hcon; cases hcon)
              rcases collect_lib_cases f
                  ⟨⟨alSet cfg.lib.active_tasks (tm.getD "")
                        ⟨t0.task_id, t0.payload, Status.completed, t0.assigned_agent⟩,
                      cfg.lib.completion_queue ++ [(am.getD "", tm.getD "")]⟩,
                    cfg.fs, cfg.counter⟩
                  (am.getD "") (tm.getD "") with hcoll | hcoll
              · rw [hcoll]
                refine ⟨hwf2, ?_⟩
                intro tid t t' h1 h2
                by_cases htid : tid = tm.getD ""
                · rw [htid] at h1 h2
                  rw [hget] at h1
                  injection h1 with h1
                  rw [alGet_alSet_self] at h2
                  injection h2 with h2
                  rw [← h1, ← h2]
                  dsimp only
                  cases hst : t0.status with
                  | routing => exact absurd hst hnr
                  | delegated => exact ⟨by decide, by decide⟩
                  | completed => exact absurd hst hc
                · rw [alGet_alSet_ne _ _ htid] at h2
                  rw [h1] at h2
                  injection h2 with h2
                  rw [← h2]
                  exact ⟨Nat.le_refl _, Nat.le_succ _⟩
              · rw [hcoll]
                dsimp only [cleanup_task]
                refine ⟨tasksWF_sublist (alErase_sublist _ _) hwf2, ?_⟩
                intro tid t t' h1 h2
                by_cases htid : tid = tm.getD ""
                · rw [htid] at h2
                  rw [alGet_alErase_self hwf2.1] at h2
                  cases h2
                · rw [alGet_alErase_ne _ htid, alGet_alSet_ne _ _ htid] at h2
                  rw [h1] at h2
                  injection h2 with h2
                  rw [← h2]
                  exact ⟨Nat.le_refl _, Nat.le_succ _⟩

theorem status_monotonic_step_witness :
    tasksWF (step [] cfgDelegated
        (Ev.taskComplete (some "probe") (some "T1") failAppend)).lib.active_tasks ∧
      ∀ tid t t', alGet cfgDelegated.lib.active_tasks tid = some t →
        alGet (step [] cfgDelegated
            (Ev.taskComplete (some "probe") (some "T1") failAppend)).lib.active_tasks tid =
          some t' →
        stOrd t.status ≤ stOrd t'.status ∧ stOrd t'.status ≤ stOrd t.status + 1 :=
  status_monotonic_step [] cfgDelegated
    (Ev.taskComplete (some "probe") (some "T1") failAppend)
    ⟨by decide, by decide⟩ True.intro

end ALIVE
